import Mathlib

set_option maxRecDepth 16000

/-!
Verification of the fuel-quantity lookup application (`airbus_app.py`).

The Python source is shallowly embedded: pandas/numpy floating-point
values are modelled as exact rationals (`ℚ`), with `Option ℚ` standing
for a float column cell (`none` = NaN, the missing-value marker produced
by `pd.to_numeric(..., errors := coerce)`).  String cells are `String`.
Every definition below is translated from the source file; definitions
that model library builtins (Python `float`, `str.strip`) document the
modelled subset in their doc comment.
-/

namespace AirbusApp

/-- Models Python `str.strip()` on a character list: drop ASCII whitespace
from both ends.  (Python also strips some rarer Unicode space characters;
the table data contains only ASCII.) -/
def pyStripL (l : List Char) : List Char :=
  ((l.dropWhile Char.isWhitespace).reverse.dropWhile Char.isWhitespace).reverse

/-- Models Python `str.strip()` on `String`. -/
def pyStrip (s : String) : String :=
  ⟨pyStripL s.data⟩

/-- Value of a digit string read in base 10, as Python `int`/`float`
parsing does for a run of digits. -/
def digitsToNat (l : List Char) : ℕ :=
  l.foldl (fun n c => 10 * n + (c.toNat - 48)) 0

/-- Parses an optional exponent suffix (after the `e`/`E`): models the
exponent part of Python `float()` on decimal literals. -/
def parseExpPart (base : ℚ) (cs : List Char) : Option ℚ :=
  let p : ℤ × List Char :=
    match cs with
    | '+' :: r => (1, r)
    | '-' :: r => (-1, r)
    | r => (1, r)
  let ds := p.2.takeWhile Char.isDigit
  let rest := p.2.dropWhile Char.isDigit
  if ds.isEmpty || !rest.isEmpty then none
  else some (base * (10 : ℚ) ^ (p.1 * (digitsToNat ds : ℤ)))

/-- Models Python `float(s)` on decimal literals: optional surrounding
whitespace, optional sign, digits with an optional fraction part and an
optional decimal exponent; `none` when parsing fails (`ValueError`).
The special spellings `inf`/`nan` and underscore digit separators are
outside the subset used by the calibration table and are treated as
parse failures. -/
def parseFloat? (s : String) : Option ℚ :=
  let cs0 := pyStripL s.data
  let sp : ℚ × List Char :=
    match cs0 with
    | '+' :: r => (1, r)
    | '-' :: r => (-1, r)
    | r => (1, r)
  let ip := sp.2.takeWhile Char.isDigit
  let cs2 := sp.2.dropWhile Char.isDigit
  match cs2 with
  | [] => if ip.isEmpty then none else some (sp.1 * (digitsToNat ip : ℚ))
  | '.' :: r =>
      let fp := r.takeWhile Char.isDigit
      let r2 := r.dropWhile Char.isDigit
      if ip.isEmpty && fp.isEmpty then none
      else
        let mag : ℚ := (digitsToNat ip : ℚ) + (digitsToNat fp : ℚ) / (10 : ℚ) ^ fp.length
        match r2 with
        | [] => some (sp.1 * mag)
        | 'e' :: r3 => parseExpPart (sp.1 * mag) r3
        | 'E' :: r3 => parseExpPart (sp.1 * mag) r3
        | _ => none
  | 'e' :: r3 => if ip.isEmpty then none else parseExpPart (sp.1 * (digitsToNat ip : ℚ)) r3
  | 'E' :: r3 => if ip.isEmpty then none else parseExpPart (sp.1 * (digitsToNat ip : ℚ)) r3
  | _ => none

/-- One row of the loaded calibration table (`df_db`), after
`load_data`'s column typing: `Tank`, `MLI`, `Pitch` are stripped
strings; `Roll`, `Reading`, `Qty` are float columns where `none` is the
NaN produced by a failed `pd.to_numeric(..., errors := coerce)`. -/
structure Row where
  tank : String
  mli : String
  pitch : String
  roll : Option ℚ
  reading : Option ℚ
  qty : Option ℚ
deriving DecidableEq, Repr

/-- `np.isclose(a, b, atol := 0.01)` on real (non-NaN) values: numpy
keeps its default relative tolerance `rtol = 1e-05`, so the test is
`|a - b| ≤ atol + rtol * |b|`. -/
def np_isclose (a b : ℚ) : Bool :=
  decide (|a - b| ≤ 1 / 100 + (1 / 100000) * |b|)

/-- `np.isclose` applied to a float column cell: NaN (a failed numeric
parse) is never close to anything. -/
def iscloseOpt : Option ℚ → ℚ → Bool
  | none, _ => false
  | some a, b => np_isclose a b

/-- `get_fuel_qty(mli, pitch, roll, reading, tank)` from the source:
guard on a missing table, filter the table by exact `Tank`/`MLI`/`Pitch`
equality and `np.isclose` on `Roll`, then by `np.isclose` on `Reading`,
and return the `Qty` cell of the first surviving row (`exact.iloc[0]`),
or `none` (Python `None`) when no row survives.  The outer `Option` is
Python `None`-vs-found; the inner `Option ℚ` is the (possibly NaN) `Qty`
cell. -/
def get_fuel_qty (df_db : Option (List Row)) (mli pitch : String) (roll reading : ℚ)
    (tank : String) : Option (Option ℚ) :=
  match df_db with
  | none => none
  | some db =>
    let subset := db.filter fun r =>
      r.tank == tank && r.mli == mli && r.pitch == pitch && iscloseOpt r.roll roll
    let exact := subset.filter fun r => iscloseOpt r.reading reading
    match exact with
    | [] => none
    | r :: _ => some r.qty

/-- One raw CSV record as read by `pd.read_csv`, before `load_data`'s
cleaning.  `tank`/`mli`/`pitch` are the cells after `astype(str)` (a
missing cell reads back as the string "nan"); `roll`/`reading`/`qty`
are the cells' numeric parses, `none` when `pd.to_numeric(...,
errors := coerce)` fails and yields NaN. -/
structure RawRow where
  tank : String
  mli : String
  pitch : String
  roll : Option ℚ
  reading : Option ℚ
  qty : Option ℚ
deriving DecidableEq, Repr

/-- Round to the nearest integer, ties to even: the rounding mode of
`pandas.Series.round`. -/
def roundHalfEvenZ (q : ℚ) : ℤ :=
  let f := ⌊q⌋
  let frac := q - (f : ℚ)
  if frac < 1 / 2 then f
  else if 1 / 2 < frac then f + 1
  else if f % 2 = 0 then f else f + 1

/-- `Series.round(d)` on a real value. -/
def roundTo (d : ℕ) (q : ℚ) : ℚ :=
  (roundHalfEvenZ (q * (10 : ℚ) ^ d) : ℚ) / (10 : ℚ) ^ d

/-- `Series.round(d)` on a float cell: NaN stays NaN. -/
def roundOpt (d : ℕ) : Option ℚ → Option ℚ :=
  Option.map (roundTo d)

/-- `load_data` from the source, applied to parsed CSV records: coerce
`Roll` to numeric rounded to 2 decimals, `Reading` to numeric rounded to
1 decimal, `Qty` to numeric (all with NaN on parse failure, rows kept);
strip `MLI`, `Pitch`, `Tank` and drop rows where any of those three
cells lowercases to "nan". -/
def load_data (raw : List RawRow) : List Row :=
  (raw.map fun r =>
      { tank := pyStrip r.tank
        mli := pyStrip r.mli
        pitch := pyStrip r.pitch
        roll := roundOpt 2 r.roll
        reading := roundOpt 1 r.reading
        qty := r.qty : Row }).filter fun r =>
    !(r.mli.toLower == "nan") && !(r.pitch.toLower == "nan") && !(r.tank.toLower == "nan")

/-- `pandas.Series.unique()`: the distinct values of a column in order
of first occurrence. -/
def uniqueFirst {α : Type} [BEq α] : List α → List α
  | [] => []
  | a :: l => a :: uniqueFirst (l.filter fun x => !(x == a))
termination_by l => l.length
decreasing_by
  exact Nat.lt_succ_of_le (l.length_filter_le _)

/-- Python `sorted` comparison on strings (no key function):
lexicographic by character code points. -/
def strLe (a b : String) : Bool :=
  decide (a ≤ b)

/-- `safe_sort_key(val)` from the source: `(0, float(val))` when the
value parses as a float, else `(1, str(val))`. -/
def safe_sort_key (val : String) : ℚ ⊕ String :=
  match parseFloat? val with
  | some x => Sum.inl x
  | none => Sum.inr val

/-- Python tuple comparison on the results of `safe_sort_key`: every
`(0, _)` key sorts before every `(1, _)` key, numeric keys compare by
value, string keys lexicographically. -/
def keyLe : ℚ ⊕ String → ℚ ⊕ String → Bool
  | Sum.inl x, Sum.inl y => decide (x ≤ y)
  | Sum.inl _, Sum.inr _ => true
  | Sum.inr _, Sum.inl _ => false
  | Sum.inr a, Sum.inr b => decide (a ≤ b)

/-- `sorted(..., key := safe_sort_key)`'s element comparison. -/
def pitchLe (a b : String) : Bool :=
  keyLe (safe_sort_key a) (safe_sort_key b)

/-- Python float `<` on cells (the only comparison `sorted` performs):
every comparison against NaN is false. -/
def pyFloatLt : Option ℚ → Option ℚ → Bool
  | some a, some b => decide (a < b)
  | _, _ => false

/-- The placement decision Python's stable sort makes between two float
cells: `x` may stay before `y` unless `y < x` (`__lt__`).  With NaN
present this relation is total but not transitive, and no
comparison-driven merge sort reproduces Timsort's run detection on a
NaN-containing column (Timsort can even return such a column
unchanged with its real values out of order), so the model's sorted
order for a column containing NaN is unspecified-by-the-program: every
ordering theorem below therefore assumes a NaN-free column, where merge
sort with this decision coincides with Python's `sorted`. -/
def floatLe (x y : Option ℚ) : Bool :=
  !(pyFloatLt y x)

/-- Proof device only (used by no definition modelling the program): a
total, transitive order on float cells that agrees with `floatLe`
whenever both cells are real, letting the library's merge-sort
sortedness lemma apply to NaN-free columns. -/
def floatLeTotal : Option ℚ → Option ℚ → Bool
  | none, _ => true
  | some _, none => false
  | some a, some b => decide (a ≤ b)

/-- The cascading filters a selector is restricted by: `none` means the
column is not filtered.  `render_mli_input` narrows `tank`, then `mli`,
then `pitch` (exact matches), then `roll` (`np.isclose`,
`atol := 0.01`). -/
structure Filters where
  tank : Option String
  mli : Option String
  pitch : Option String
  roll : Option ℚ
deriving DecidableEq, Repr

/-- A row passes every chosen filter. -/
def matchesFilters (f : Filters) (r : Row) : Bool :=
  (match f.tank with | none => true | some t => r.tank == t) &&
  (match f.mli with | none => true | some m => r.mli == m) &&
  (match f.pitch with | none => true | some p => r.pitch == p) &&
  (match f.roll with | none => true | some v => iscloseOpt r.roll v)

/-- The empty filter set. -/
def noFilters : Filters :=
  ⟨none, none, none, none⟩

/-- `availableValues` for the `MLI` column:
`sorted(scope['MLI'].unique())` over the rows passing the filters. -/
def availableMLIs (db : List Row) (f : Filters) : List String :=
  (uniqueFirst ((db.filter (matchesFilters f)).map Row.mli)).mergeSort strLe

/-- `availableValues` for the `Pitch` column:
`sorted(scope['Pitch'].unique(), key := safe_sort_key)`. -/
def availablePitches (db : List Row) (f : Filters) : List String :=
  (uniqueFirst ((db.filter (matchesFilters f)).map Row.pitch)).mergeSort pitchLe

/-- `availableValues` for the `Roll` column:
`sorted(scope['Roll'].unique())`. -/
def availableRolls (db : List Row) (f : Filters) : List (Option ℚ) :=
  (uniqueFirst ((db.filter (matchesFilters f)).map Row.roll)).mergeSort floatLe

/-- `availableValues` for the `Reading` column:
`sorted(scope['Reading'].unique())`. -/
def availableReadings (db : List Row) (f : Filters) : List (Option ℚ) :=
  (uniqueFirst ((db.filter (matchesFilters f)).map Row.reading)).mergeSort floatLe

/-- `valid_mlis` in `render_mli_input`: distinct sorted `MLI` values of
the rows of the selected tank. -/
def valid_mlis (db : List Row) (tank : String) : List String :=
  availableMLIs db ⟨some tank, none, none, none⟩

/-- `valid_pitches` in `render_mli_input`. -/
def valid_pitches (db : List Row) (tank mli : String) : List String :=
  availablePitches db ⟨some tank, some mli, none, none⟩

/-- `valid_rolls` in `render_mli_input`. -/
def valid_rolls (db : List Row) (tank mli pitch : String) : List (Option ℚ) :=
  availableRolls db ⟨some tank, some mli, some pitch, none⟩

/-- `valid_readings` in `render_mli_input` (the `final_scope` values:
the roll filter uses `np.isclose` with `atol := 0.01`). -/
def valid_readings (db : List Row) (tank mli pitch : String) (roll : ℚ) : List (Option ℚ) :=
  availableReadings db ⟨some tank, some mli, some pitch, some roll⟩

/-- The pitch-normalisation test from the default-pitch loop:
`str(p).replace(".0", "").strip() == "0"`.  `removeDotZero` removes the
non-overlapping occurrences of the two-character pattern `.0`, scanning
left to right, exactly as `str.replace` does. -/
def removeDotZero : List Char → List Char
  | '.' :: '0' :: r => removeDotZero r
  | c :: r => c :: removeDotZero r
  | [] => []

/-- `str(p).replace(".0", "").strip() == "0"`. -/
def pitch_norm_zero (p : String) : Bool :=
  pyStrip ⟨removeDotZero p.data⟩ == "0"

/-- The `p_index` loop of `render_mli_input`: starting from 0, every
enumerated pitch that normalises to "0" overwrites the index, so the
final value is the index of the last such pitch (or 0). -/
def p_index_aux : List String → ℕ → ℕ → ℕ
  | [], _, acc => acc
  | p :: r, i, acc => p_index_aux r (i + 1) (if pitch_norm_zero p then i else acc)

/-- `p_index` after the loop. -/
def p_index (ps : List String) : ℕ :=
  p_index_aux ps 0 0

/-- The pitch the selectbox is initialised to: `valid_pitches[p_index]`. -/
def default_pitch (ps : List String) : Option String :=
  ps[p_index ps]?

/-- `r_index` in `render_mli_input`:
`valid_rolls.index(0.0)` if `0.0 in valid_rolls` else `0`. -/
def r_index (rs : List (Option ℚ)) : ℕ :=
  if rs.contains (some 0) then rs.indexOf (some 0) else 0

/-- The roll the selectbox is initialised to: `valid_rolls[r_index]`. -/
def default_roll (rs : List (Option ℚ)) : Option (Option ℚ) :=
  rs[r_index rs]?

/-- The roll-selector guard of `render_mli_input`:
`len(valid_rolls) > 1 or (len(valid_rolls) == 1 and valid_rolls[0] != 0)`.
When it is false the selectbox is skipped and `roll_val = 0.0`. -/
def roll_selector_shown (rs : List (Option ℚ)) : Bool :=
  decide (rs.length > 1) || (rs.length == 1 && !(rs.headD none == some 0))

/-- The roll actually used downstream: the user's choice when the
selector is shown, the fixed `0.0` otherwise. -/
def roll_value (rs : List (Option ℚ)) (chosen : ℚ) : ℚ :=
  if roll_selector_shown rs then chosen else 0

/-- The four per-tank running totals held in `st.session_state`
(`left_qty`, `center_qty`, `right_qty`, `act_qty`). -/
structure SessionState where
  left_qty : Option ℚ
  center_qty : Option ℚ
  right_qty : Option ℚ
  act_qty : Option ℚ
deriving DecidableEq, Repr

/-- The Reset-All button: `st.session_state[k] = 0` for all four keys,
whatever the previous state was. -/
def reset_all (s : SessionState) : SessionState :=
  { s with left_qty := some 0, center_qty := some 0, right_qty := some 0, act_qty := some 0 }

/-- Float addition on cells: NaN propagates. -/
def addFloat : Option ℚ → Option ℚ → Option ℚ
  | some a, some b => some (a + b)
  | _, _ => none

/-- `total_fuel = left_qty + center_qty + right_qty + act_qty`. -/
def total_fuel (s : SessionState) : Option ℚ :=
  addFloat (addFloat (addFloat s.left_qty s.center_qty) s.right_qty) s.act_qty

/-- The combined row predicate of `get_fuel_qty`: the four-way filter
building `subset` followed by the `Reading` filter building `exact`. -/
def rowKey (mli pitch : String) (roll reading : ℚ) (tank : String) (r : Row) : Bool :=
  (r.tank == tank && r.mli == mli && r.pitch == pitch && iscloseOpt r.roll roll) &&
    iscloseOpt r.reading reading

/-- `iscloseCell` compares two float cells; it is `np.isclose` when both
are real and false when either is NaN.  It lets table well-formedness be
stated (and decided) without naming the cell's rational value. -/
def iscloseCell : Option ℚ → Option ℚ → Bool
  | some a, some b => np_isclose a b
  | _, _ => false

/-- Modelled from the spec: a well-formed calibration table has no
duplicate keys — any two rows that `get_fuel_qty`'s filter cannot tell
apart (same tank, MLI and pitch, rolls and readings within `np.isclose`
of each other) carry the same quantity. -/
def WellFormed (db : List Row) : Prop :=
  ∀ r ∈ db, ∀ r' ∈ db,
    ((r'.tank == r.tank && r'.mli == r.mli && r'.pitch == r.pitch &&
        iscloseCell r'.roll r.roll) && iscloseCell r'.reading r.reading) = true →
    r'.qty = r.qty

/-- The spec's worked example table: one Left-tank calibration row
`(Left, "MLI-3", "0.0", 0.0, 150.0, 2400)`. -/
def exampleTable : List Row :=
  [⟨"Left", "MLI-3", "0.0", some 0, some 150, some 2400⟩]

/-- A one-row table whose stored roll is `1000.02`: more than `0.01`
away from the query roll `1000.005`, yet inside numpy's default
relative-tolerance slack. -/
def rollFarTable : List Row :=
  [⟨"Left", "M1", "0", some (50001 / 50), some 100, some 5⟩]

/-- A raw CSV record whose `Qty` cell does not parse as a number. -/
def rawQtyNaN : List RawRow :=
  [⟨"Left", "M1", "0", some 0, some 150, none⟩]

/-- A table whose `MLI` values are the numeric strings "10" and "9". -/
def mixedMliTable : List Row :=
  [⟨"Left", "10", "0", some 0, some 1, some 5⟩, ⟨"Left", "9", "0", some 0, some 1, some 6⟩]

/-- A table with two distinct NaN-free Left-tank rolls (and readings),
stored out of order in the CSV. -/
def rollsTable : List Row :=
  [⟨"Left", "M", "0", some 2, some 1, some 5⟩, ⟨"Left", "M", "0", some 1, some 2, some 6⟩]

theorem get_fuel_qty_eq_head_filter (db : List Row) (mli pitch : String) (roll reading : ℚ)
    (tank : String) :
    get_fuel_qty (some db) mli pitch roll reading tank =
      ((db.filter (rowKey mli pitch roll reading tank)).head?).map Row.qty := by
  show (match (db.filter _).filter _ with
        | [] => none
        | r :: _ => some r.qty) = _
  rw [List.filter_filter]
  rw [show (db.filter fun r =>
        iscloseOpt r.reading reading &&
          (r.tank == tank && r.mli == mli && r.pitch == pitch && iscloseOpt r.roll roll)) =
      db.filter (rowKey mli pitch roll reading tank) from
    List.filter_congr fun r _ => Bool.and_comm ..]
  cases db.filter (rowKey mli pitch roll reading tank) <;> rfl

theorem head_filter_of_exists {α : Type} {p : α → Bool} :
    ∀ {l : List α}, (∃ x ∈ l, p x = true) →
      ∃ y, (l.filter p).head? = some y ∧ y ∈ l ∧ p y = true
  | [], h => absurd h (by simp)
  | a :: l, h => by
    by_cases ha : p a = true
    · exact ⟨a, by simp [List.filter_cons, ha], List.mem_cons_self a l, ha⟩
    · have h' : ∃ x ∈ l, p x = true := by
        rcases h with ⟨x, hx, hpx⟩
        rcases List.mem_cons.mp hx with rfl | hxl
        · exact absurd hpx ha
        · exact ⟨x, hxl, hpx⟩
      rcases head_filter_of_exists h' with ⟨y, hy, hyl, hpy⟩
      refine ⟨y, ?_, List.mem_cons_of_mem a hyl, hpy⟩
      rw [List.filter_cons, if_neg ha]
      exact hy

theorem head_filter_mem {α : Type} {p : α → Bool} {l : List α} {y : α}
    (h : (l.filter p).head? = some y) : y ∈ l ∧ p y = true := by
  have : y ∈ l.filter p := by
    cases hf : l.filter p with
    | nil => simp [hf] at h
    | cons a t => rw [hf] at h; simp at h; simp [hf, h]
  exact ⟨(List.mem_filter.mp this).1, (List.mem_filter.mp this).2⟩

theorem mem_uniqueFirst {α : Type} [BEq α] [LawfulBEq α] :
    ∀ (l : List α) (x : α), x ∈ uniqueFirst l ↔ x ∈ l
  | [], x => by simp [uniqueFirst]
  | a :: l, x => by
    rw [uniqueFirst]
    have ih := mem_uniqueFirst (l.filter fun y => !(y == a)) x
    simp only [List.mem_cons, ih, List.mem_filter, Bool.not_eq_true', beq_eq_false_iff_ne]
    constructor
    · rintro (rfl | ⟨hx, _⟩)
      · exact Or.inl rfl
      · exact Or.inr hx
    · rintro (rfl | hx)
      · exact Or.inl rfl
      · by_cases hxa : x = a
        · exact Or.inl hxa
        · exact Or.inr ⟨hx, hxa⟩
termination_by l => l.length
decreasing_by
  exact Nat.lt_succ_of_le (l.length_filter_le _)

theorem strLe_trans : ∀ (a b c : String), strLe a b → strLe b c → strLe a c := by
  intro a b c hab hbc
  simp only [strLe, decide_eq_true_eq] at *
  exact le_trans hab hbc

theorem strLe_total : ∀ (a b : String), strLe a b || strLe b a := by
  intro a b
  simp only [strLe, Bool.or_eq_true, decide_eq_true_eq]
  exact le_total a b

theorem keyLe_trans : ∀ (a b c : ℚ ⊕ String), keyLe a b → keyLe b c → keyLe a c := by
  rintro (x | x) (y | y) (z | z) hab hbc <;>
    simp only [keyLe, decide_eq_true_eq] at * <;>
    first
    | exact le_trans hab hbc
    | trivial

theorem keyLe_total : ∀ (a b : ℚ ⊕ String), keyLe a b || keyLe b a := by
  rintro (x | x) (y | y) <;>
    simp only [keyLe, Bool.or_eq_true, decide_eq_true_eq] <;>
    first
    | exact le_total x y
    | trivial

theorem pitchLe_trans : ∀ (a b c : String), pitchLe a b → pitchLe b c → pitchLe a c :=
  fun a b c hab hbc => keyLe_trans _ _ _ hab hbc

theorem pitchLe_total : ∀ (a b : String), pitchLe a b || pitchLe b a :=
  fun a b => keyLe_total _ _

theorem floatLe_some_some (a b : ℚ) : floatLe (some a) (some b) = decide (a ≤ b) := by
  simp [floatLe, pyFloatLt, ← decide_not, not_lt]

theorem floatLeTotal_trans :
    ∀ (a b c : Option ℚ), floatLeTotal a b → floatLeTotal b c → floatLeTotal a c := by
  rintro (_ | x) (_ | y) (_ | z) hab hbc <;>
    simp only [floatLeTotal, decide_eq_true_eq] at * <;>
    first
    | exact le_trans hab hbc
    | trivial

theorem floatLeTotal_total : ∀ (a b : Option ℚ), floatLeTotal a b || floatLeTotal b a := by
  rintro (_ | x) (_ | y) <;>
    simp only [floatLeTotal, Bool.or_eq_true, decide_eq_true_eq] <;>
    first
    | exact le_total x y
    | trivial

theorem merge_congr {α : Type} {le le' : α → α → Bool} :
    ∀ (xs ys : List α), (∀ a ∈ xs, ∀ b ∈ ys, le a b = le' a b) →
      List.merge xs ys le = List.merge xs ys le'
  | [], ys, _ => by simp
  | x :: xs, [], _ => by simp
  | x :: xs, y :: ys, h => by
    have hxy : le x y = le' x y := h x (List.mem_cons_self x xs) y (List.mem_cons_self y ys)
    have e1 : List.merge (x :: xs) (y :: ys) le =
        if le x y then x :: List.merge xs (y :: ys) le
        else y :: List.merge (x :: xs) ys le := by
      rw [List.merge]
    have e2 : List.merge (x :: xs) (y :: ys) le' =
        if le' x y then x :: List.merge xs (y :: ys) le'
        else y :: List.merge (x :: xs) ys le' := by
      rw [List.merge]
    rw [e1, e2, ← hxy]
    by_cases hc : le x y = true
    · rw [if_pos hc, if_pos hc]
      exact congrArg (x :: ·)
        (merge_congr xs (y :: ys) fun a ha b hb => h a (List.mem_cons_of_mem x ha) b hb)
    · rw [if_neg hc, if_neg hc]
      exact congrArg (y :: ·)
        (merge_congr (x :: xs) ys fun a ha b hb => h a ha b (List.mem_cons_of_mem y hb))
termination_by xs ys => xs.length + ys.length

theorem mergeSort_congr {α : Type} {le le' : α → α → Bool} :
    ∀ (l : List α), (∀ a ∈ l, ∀ b ∈ l, le a b = le' a b) →
      l.mergeSort le = l.mergeSort le'
  | [], _ => by simp
  | [a], _ => by simp
  | a :: b :: xs, h => by
    have hl1 : (List.splitInTwo ⟨a :: b :: xs, rfl⟩).1.1.length < xs.length + 1 + 1 := by
      simp [List.splitInTwo_fst]
      omega
    have hl2 : (List.splitInTwo ⟨a :: b :: xs, rfl⟩).2.1.length < xs.length + 1 + 1 := by
      simp [List.splitInTwo_snd]
      omega
    have m1 : ∀ x ∈ (List.splitInTwo ⟨a :: b :: xs, rfl⟩).1.1, x ∈ a :: b :: xs := by
      intro x hx
      rw [List.splitInTwo_fst] at hx
      exact List.mem_of_mem_take hx
    have m2 : ∀ x ∈ (List.splitInTwo ⟨a :: b :: xs, rfl⟩).2.1, x ∈ a :: b :: xs := by
      intro x hx
      rw [List.splitInTwo_snd] at hx
      exact List.mem_of_mem_drop hx
    rw [List.mergeSort, List.mergeSort]
    rw [mergeSort_congr (List.splitInTwo ⟨a :: b :: xs, rfl⟩).1.1
        fun p hp q hq => h p (m1 p hp) q (m1 q hq),
      mergeSort_congr (List.splitInTwo ⟨a :: b :: xs, rfl⟩).2.1
        fun p hp q hq => h p (m2 p hp) q (m2 q hq)]
    exact merge_congr _ _ fun p hp q hq =>
      h p (m1 p (List.mem_mergeSort.mp hp)) q (m2 q (List.mem_mergeSort.mp hq))
termination_by l => l.length

theorem sorted_mergeSort_of_agree {α : Type} {le le' : α → α → Bool}
    (trans : ∀ (a b c : α), le' a b → le' b c → le' a c)
    (total : ∀ (a b : α), le' a b || le' b a)
    (l : List α) (agree : ∀ a ∈ l, ∀ b ∈ l, le a b = le' a b) :
    (l.mergeSort le).Pairwise (le' · ·) := by
  rw [mergeSort_congr l agree]
  exact List.sorted_mergeSort trans total l

theorem matchesFilters_noFilters (r : Row) : matchesFilters noFilters r = true := rfl

theorem filter_noFilters (db : List Row) : db.filter (matchesFilters noFilters) = db :=
  List.filter_eq_self.mpr fun r _ => matchesFilters_noFilters r

theorem mem_availableMLIs {db : List Row} {f : Filters} {x : String} :
    x ∈ availableMLIs db f ↔ x ∈ (db.filter (matchesFilters f)).map Row.mli := by
  rw [availableMLIs, List.mem_mergeSort, mem_uniqueFirst]

theorem mem_availablePitches {db : List Row} {f : Filters} {x : String} :
    x ∈ availablePitches db f ↔ x ∈ (db.filter (matchesFilters f)).map Row.pitch := by
  rw [availablePitches, List.mem_mergeSort, mem_uniqueFirst]

theorem mem_availableRolls {db : List Row} {f : Filters} {x : Option ℚ} :
    x ∈ availableRolls db f ↔ x ∈ (db.filter (matchesFilters f)).map Row.roll := by
  rw [availableRolls, List.mem_mergeSort, mem_uniqueFirst]

theorem mem_availableReadings {db : List Row} {f : Filters} {x : Option ℚ} :
    x ∈ availableReadings db f ↔ x ∈ (db.filter (matchesFilters f)).map Row.reading := by
  rw [availableReadings, List.mem_mergeSort, mem_uniqueFirst]

theorem np_isclose_self (x : ℚ) : np_isclose x x = true := by
  simp only [np_isclose, sub_self, abs_zero, decide_eq_true_eq]
  positivity

theorem iscloseOpt_eq_true_iff {o : Option ℚ} {v : ℚ} :
    iscloseOpt o v = true ↔ ∃ x, o = some x ∧ |x - v| ≤ 1 / 100 + (1 / 100000) * |v| := by
  cases o with
  | none => simp [iscloseOpt]
  | some a => simp [iscloseOpt, np_isclose]

theorem iscloseCell_some (o : Option ℚ) (v : ℚ) : iscloseCell o (some v) = iscloseOpt o v := by
  cases o <;> rfl

theorem p_index_aux_of_none :
    ∀ (ps : List String) (i acc : ℕ), (∀ p ∈ ps, pitch_norm_zero p = false) →
      p_index_aux ps i acc = acc
  | [], _, _, _ => rfl
  | p :: r, i, acc, h => by
    rw [p_index_aux, if_neg (by simp [h p (List.mem_cons_self p r)])]
    exact p_index_aux_of_none r (i + 1) acc fun q hq => h q (List.mem_cons_of_mem p hq)

theorem p_index_aux_of_exists :
    ∀ (ps : List String) (i acc : ℕ), (∃ p ∈ ps, pitch_norm_zero p = true) →
      ∃ j q, ps[j]? = some q ∧ pitch_norm_zero q = true ∧ p_index_aux ps i acc = i + j
  | [], _, _, h => absurd h (by simp)
  | p :: r, i, acc, h => by
    by_cases hr : ∃ q ∈ r, pitch_norm_zero q = true
    · obtain ⟨j, q, hj, hq, heq⟩ :=
        p_index_aux_of_exists r (i + 1) (if pitch_norm_zero p then i else acc) hr
      refine ⟨j + 1, q, by simpa using hj, hq, ?_⟩
      rw [p_index_aux, heq]
      omega
    · push_neg at hr
      have hp : pitch_norm_zero p = true := by
        rcases h with ⟨x, hx, hpx⟩
        rcases List.mem_cons.mp hx with rfl | hxl
        · exact hpx
        · exact absurd hpx (by simp [hr x hxl])
      refine ⟨0, p, by simp, hp, ?_⟩
      rw [p_index_aux, if_pos hp,
        p_index_aux_of_none r (i + 1) i fun q hq => by simpa using hr q hq]
      omega

theorem pitchLe_spec {a b : String} (h : pitchLe a b = true) :
    (match parseFloat? a, parseFloat? b with
      | some x, some y => x ≤ y
      | some _, none => True
      | none, some _ => False
      | none, none => a ≤ b) := by
  unfold pitchLe safe_sort_key at h
  cases ha : parseFloat? a <;> cases hb : parseFloat? b <;>
    rw [ha, hb] at h <;> simpa [keyLe] using h

theorem floatLeTotal_spec {a b : Option ℚ} (h : floatLeTotal a b = true) :
    ∀ x y, a = some x → b = some y → x ≤ y := by
  rintro x y rfl rfl
  simpa [floatLeTotal] using h

theorem roll_shown_iff (rs : List (Option ℚ)) :
    roll_selector_shown rs = false ↔ rs = [] ∨ rs = [some 0] := by
  match rs with
  | [] => simp [roll_selector_shown]
  | [a] =>
    have hshown : roll_selector_shown [a] = !(a == some 0) := by
      simp [roll_selector_shown]
    rw [hshown]
    constructor
    · intro h
      have ha : (a == some 0) = true := by
        cases hab : a == some 0
        · rw [hab] at h
          exact absurd h (by simp)
        · rfl
      exact Or.inr (by rw [beq_iff_eq.mp ha])
    · rintro (h | h)
      · exact absurd h (by simp)
      · rw [(List.cons.inj h).1]
        simp
  | a :: b :: t =>
    simp only [roll_selector_shown]
    constructor
    · intro h
      exfalso
      have : decide ((a :: b :: t).length > 1) = true := by
        simp [List.length_cons]
      simp [this] at h
    · rintro (h | h) <;> simp at h

/-- Claim C1 (amended): `get_fuel_qty` filters the table by exact string
equality on tank, MLI and pitch and keeps rows whose roll and reading
are within `np.isclose` of the requested values (absolute tolerance
`0.01` plus numpy's default relative tolerance `1e-05` of the requested
value); it returns the qty of the first remaining row in the table's
original order when that set is non-empty, and `None` when it is empty
or the table is missing.  (The claim as stated, with a pure `0.01`
absolute tolerance, fails: see the counterexample.) -/
theorem claim_C1 (db : List Row) (mli pitch : String) (roll reading : ℚ) (tank : String) :
    get_fuel_qty (some db) mli pitch roll reading tank =
      ((db.filter (rowKey mli pitch roll reading tank)).head?).map Row.qty ∧
    get_fuel_qty none mli pitch roll reading tank = none :=
  ⟨get_fuel_qty_eq_head_filter db mli pitch roll reading tank, rfl⟩

/-- Claim C1 counterexample: the only row of `rollFarTable` has stored
roll `1000.02`, which is farther than `0.01` from the requested roll
`1000.005`, yet `get_fuel_qty` returns its qty — so the roll filter is
not the claimed absolute tolerance `0.01`. -/
theorem claim_C1_counterexample :
    get_fuel_qty (some rollFarTable) "M1" "0" (200001 / 200) 100 "Left" = some (some 5) ∧
    ¬(|(50001 : ℚ) / 50 - 200001 / 200| ≤ 1 / 100) := by
  with_unfolding_all decide

/-- Claim C2: for every row of a well-formed table, `get_fuel_qty` with
that row's own key returns that row's qty; and on the spec's example
table the queries with reading `150.0`, `150.2` and `150.005` return
`2400`, `None` and `2400` respectively. -/
theorem claim_C2 :
    (∀ (db : List Row) (r : Row) (rv re : ℚ), WellFormed db → r ∈ db →
      r.roll = some rv → r.reading = some re →
      get_fuel_qty (some db) r.mli r.pitch rv re r.tank = some r.qty) ∧
    get_fuel_qty (some exampleTable) "MLI-3" "0.0" 0 150 "Left" = some (some 2400) ∧
    get_fuel_qty (some exampleTable) "MLI-3" "0.0" 0 (751 / 5) "Left" = none ∧
    get_fuel_qty (some exampleTable) "MLI-3" "0.0" 0 (30001 / 200) "Left" = some (some 2400) := by
  refine ⟨?_, ?_, ?_, ?_⟩
  · intro db r rv re hWF hr hroll hread
    rw [get_fuel_qty_eq_head_filter]
    have hself : rowKey r.mli r.pitch rv re r.tank r = true := by
      unfold rowKey
      rw [hroll, hread]
      simp [iscloseOpt, np_isclose_self]
    obtain ⟨y, hhead, hy, hpy⟩ := head_filter_of_exists ⟨r, hr, hself⟩
    rw [hhead, Option.map_some']
    have hq : y.qty = r.qty := by
      refine hWF r hr y hy ?_
      rw [hroll, hread, iscloseCell_some, iscloseCell_some]
      exact hpy
    rw [hq]
  · with_unfolding_all decide
  · with_unfolding_all decide
  · with_unfolding_all decide

/-- Witness for C2: the example table is well-formed, its row is a
member, and the round-trip query returns that row's qty. -/
theorem claim_C2_witness :
    WellFormed exampleTable ∧
    (⟨"Left", "MLI-3", "0.0", some 0, some 150, some 2400⟩ : Row) ∈ exampleTable ∧
    get_fuel_qty (some exampleTable) "MLI-3" "0.0" 0 150 "Left" = some (some 2400) :=
  have hwf : WellFormed exampleTable := by
    unfold WellFormed
    with_unfolding_all decide
  have hmem : (⟨"Left", "MLI-3", "0.0", some 0, some 150, some 2400⟩ : Row) ∈ exampleTable := by
    with_unfolding_all decide
  ⟨hwf, hmem, claim_C2.1 exampleTable _ 0 150 hwf hmem rfl rfl⟩

/-- Claim C3 (amended): a query matches a row exactly when the stored
roll and reading are within `np.isclose` of the requested values —
`|stored - requested| ≤ 0.01 + 1e-05 * |requested|`, numpy's default
relative tolerance included — not the claimed pure absolute `0.01`.
At stored roll `0.0` the claimed examples stand: query rolls `0.004`
and `0.0` match, `0.02` does not. -/
theorem claim_C3 :
    (∀ (db : List Row) (mli pitch : String) (roll reading : ℚ) (tank : String),
      get_fuel_qty (some db) mli pitch roll reading tank ≠ none ↔
        ∃ r ∈ db, r.tank = tank ∧ r.mli = mli ∧ r.pitch = pitch ∧
          (∃ x, r.roll = some x ∧ |x - roll| ≤ 1 / 100 + (1 / 100000) * |roll|) ∧
          (∃ y, r.reading = some y ∧ |y - reading| ≤ 1 / 100 + (1 / 100000) * |reading|)) ∧
    np_isclose 0 (1 / 250) = true ∧ np_isclose (1 / 250) 0 = true ∧
    np_isclose 0 (1 / 50) = false := by
  refine ⟨?_, ?_, ?_, ?_⟩
  · intro db mli pitch roll reading tank
    rw [get_fuel_qty_eq_head_filter, Ne, Option.map_eq_none', List.head?_eq_none_iff,
      List.filter_eq_nil_iff]
    push_neg
    constructor
    · rintro ⟨r, hr, hkey⟩
      refine ⟨r, hr, ?_⟩
      simp only [rowKey, Bool.and_eq_true, beq_iff_eq, iscloseOpt_eq_true_iff] at hkey
      exact ⟨hkey.1.1.1.1, hkey.1.1.1.2, hkey.1.1.2, hkey.1.2, hkey.2⟩
    · rintro ⟨r, hr, h1, h2, h3, h4, h5⟩
      refine ⟨r, hr, ?_⟩
      simp only [rowKey, Bool.and_eq_true, beq_iff_eq, iscloseOpt_eq_true_iff]
      exact ⟨⟨⟨⟨h1, h2⟩, h3⟩, h4⟩, h5⟩
  · with_unfolding_all decide
  · with_unfolding_all decide
  · with_unfolding_all decide

/-- Claim C3 counterexample: stored value `1000.02` and requested value
`1000.005` differ by more than `0.01`, yet the comparison used by
`get_fuel_qty` accepts them, so "matches exactly when |v - s| ≤ 0.01"
is false. -/
theorem claim_C3_counterexample :
    np_isclose (50001 / 50) (200001 / 200) = true ∧
    ¬(|(50001 : ℚ) / 50 - (200001 : ℚ) / 200| ≤ 1 / 100) := by
  with_unfolding_all decide

/-- Claim C4 (amended): rows whose `Roll`, `Reading` or `Qty` cell fails
to parse are NOT discarded by `load_data` — the cell is coerced to NaN
and the row kept.  A row whose roll or reading is NaN can never satisfy
`get_fuel_qty`'s row predicate, so such rows are unmatchable; but a row
whose `Qty` alone failed to parse remains matchable, and its NaN qty is
returned (see the counterexample). -/
theorem claim_C4 :
    (∀ (mli pitch : String) (roll reading : ℚ) (tank : String) (r : Row),
      rowKey mli pitch roll reading tank r = true → r.roll ≠ none ∧ r.reading ≠ none) ∧
    get_fuel_qty (some (load_data rawQtyNaN)) "M1" "0" 0 150 "Left" = some none := by
  constructor
  · intro mli pitch roll reading tank r h
    simp only [rowKey, Bool.and_eq_true] at h
    obtain ⟨⟨⟨⟨-, -⟩, -⟩, hroll⟩, hread⟩ := h
    obtain ⟨x, hx, -⟩ := iscloseOpt_eq_true_iff.mp hroll
    obtain ⟨y, hy, -⟩ := iscloseOpt_eq_true_iff.mp hread
    exact ⟨by simp [hx], by simp [hy]⟩
  · with_unfolding_all decide

/-- Claim C4 counterexample: the raw record with an unparseable `Qty`
survives `load_data` with qty NaN, and a query against the loaded table
reaches it — `get_fuel_qty` returns `some none`, surfacing the NaN. -/
theorem claim_C4_counterexample :
    load_data rawQtyNaN = [⟨"Left", "M1", "0", some 0, some 150, none⟩] ∧
    get_fuel_qty (some (load_data rawQtyNaN)) "M1" "0" 0 150 "Left" = some none := by
  with_unfolding_all decide

/-- Witness for C4: a concrete row satisfying `get_fuel_qty`'s row
predicate indeed has a parseable roll. -/
theorem claim_C4_witness :
    rowKey "M1" "0" 0 150 "Left" ⟨"Left", "M1", "0", some 0, some 150, some 5⟩ = true ∧
    (⟨"Left", "M1", "0", some 0, some 150, some 5⟩ : Row).roll ≠ none :=
  ⟨by with_unfolding_all decide,
    (claim_C4.1 "M1" "0" 0 150 "Left" _ (by with_unfolding_all decide)).1⟩

theorem contains_iff_mem {α : Type} [BEq α] [LawfulBEq α] (l : List α) (a : α) :
    l.contains a = true ↔ a ∈ l := by
  rw [List.contains_iff_exists_mem_beq]
  constructor
  · rintro ⟨a', ha', hbeq⟩
    rw [beq_iff_eq.mp hbeq]
    exact ha'
  · intro h
    exact ⟨a, h, by simp⟩

theorem getElem?_indexOf_mem {α : Type} [BEq α] [LawfulBEq α] :
    ∀ (l : List α) (a : α), a ∈ l → l[l.indexOf a]? = some a
  | b :: t, a, h => by
    rw [List.indexOf, List.findIdx_cons]
    cases hba : b == a with
    | true =>
      simp [beq_iff_eq.mp hba]
    | false =>
      have ha : a ∈ t := by
        rcases List.mem_cons.mp h with rfl | hmem
        · rw [beq_self_eq_true] at hba
          exact absurd hba (by simp)
        · exact hmem
      simpa using getElem?_indexOf_mem t a ha

/-- Claim C5 (amended): the Pitch selector follows the mixed-type
policy — numeric-parseable values first in ascending numeric order,
then non-numeric values in lexicographic order; the MLI selector is
always sorted lexicographically as strings (even when every value
parses as a number — see the counterexample); and when the Roll or
Reading column holds no NaN entry — the only case in which the
program's Timsort realises a comparison order at all — the selector
lists the float values in ascending numeric order. -/
theorem claim_C5 (db : List Row) (f : Filters) :
    (availableMLIs db f).Pairwise (fun a b => a ≤ b) ∧
    (availablePitches db f).Pairwise (fun a b =>
      match parseFloat? a, parseFloat? b with
      | some x, some y => x ≤ y
      | some _, none => True
      | none, some _ => False
      | none, none => a ≤ b) ∧
    (none ∉ availableRolls db f →
      (availableRolls db f).Pairwise (fun a b => ∀ x y, a = some x → b = some y → x ≤ y)) ∧
    (none ∉ availableReadings db f →
      (availableReadings db f).Pairwise (fun a b => ∀ x y, a = some x → b = some y → x ≤ y)) := by
  refine ⟨?_, ?_, ?_, ?_⟩
  · unfold availableMLIs
    exact (List.sorted_mergeSort strLe_trans strLe_total _).imp fun h => by
      simpa [strLe] using h
  · unfold availablePitches
    exact (List.sorted_mergeSort pitchLe_trans pitchLe_total _).imp fun h => pitchLe_spec h
  · intro hnone
    unfold availableRolls at hnone ⊢
    refine (sorted_mergeSort_of_agree floatLeTotal_trans floatLeTotal_total _ ?_).imp
      fun h => floatLeTotal_spec h
    intro a ha b hb
    rcases a with _ | x
    · exact absurd (List.mem_mergeSort.mpr ha) hnone
    rcases b with _ | y
    · exact absurd (List.mem_mergeSort.mpr hb) hnone
    rw [floatLe_some_some]
    rfl
  · intro hnone
    unfold availableReadings at hnone ⊢
    refine (sorted_mergeSort_of_agree floatLeTotal_trans floatLeTotal_total _ ?_).imp
      fun h => floatLeTotal_spec h
    intro a ha b hb
    rcases a with _ | x
    · exact absurd (List.mem_mergeSort.mpr ha) hnone
    rcases b with _ | y
    · exact absurd (List.mem_mergeSort.mpr hb) hnone
    rw [floatLe_some_some]
    rfl

/-- Claim C5 counterexample: on a table whose MLI values are "10" and
"9" — both numeric-parseable — the MLI selector shows `["10", "9"]`,
which is not numeric ascending order (`10 > 9`), refuting the claimed
sort policy for the MLI column. -/
theorem claim_C5_counterexample :
    valid_mlis mixedMliTable "Left" = ["10", "9"] ∧
    parseFloat? "10" = some 10 ∧ parseFloat? "9" = some 9 ∧ ¬((10 : ℚ) ≤ 9) := by
  with_unfolding_all decide

/-- Witness for C5: a NaN-free roll column stored out of order in the
CSV is listed in ascending numeric order. -/
theorem claim_C5_witness :
    none ∉ availableRolls rollsTable ⟨some "Left", none, none, none⟩ ∧
    (availableRolls rollsTable ⟨some "Left", none, none, none⟩).Pairwise
      (fun a b => ∀ x y, a = some x → b = some y → x ≤ y) :=
  have h : none ∉ availableRolls rollsTable ⟨some "Left", none, none, none⟩ := by
    with_unfolding_all decide
  ⟨h, (claim_C5 rollsTable ⟨some "Left", none, none, none⟩).2.2.1 h⟩

/-- Claim C6: for every table, column and filter set, the available
values under the filters are a subset of the available values with no
filters. -/
theorem claim_C6 (db : List Row) (f : Filters) :
    (∀ x, x ∈ availableMLIs db f → x ∈ availableMLIs db noFilters) ∧
    (∀ x, x ∈ availablePitches db f → x ∈ availablePitches db noFilters) ∧
    (∀ x, x ∈ availableRolls db f → x ∈ availableRolls db noFilters) ∧
    (∀ x, x ∈ availableReadings db f → x ∈ availableReadings db noFilters) := by
  refine ⟨?_, ?_, ?_, ?_⟩
  · intro x hx
    rw [mem_availableMLIs] at hx ⊢
    rw [filter_noFilters]
    obtain ⟨r, hr, rfl⟩ := List.mem_map.mp hx
    exact List.mem_map_of_mem _ (List.mem_filter.mp hr).1
  · intro x hx
    rw [mem_availablePitches] at hx ⊢
    rw [filter_noFilters]
    obtain ⟨r, hr, rfl⟩ := List.mem_map.mp hx
    exact List.mem_map_of_mem _ (List.mem_filter.mp hr).1
  · intro x hx
    rw [mem_availableRolls] at hx ⊢
    rw [filter_noFilters]
    obtain ⟨r, hr, rfl⟩ := List.mem_map.mp hx
    exact List.mem_map_of_mem _ (List.mem_filter.mp hr).1
  · intro x hx
    rw [mem_availableReadings] at hx ⊢
    rw [filter_noFilters]
    obtain ⟨r, hr, rfl⟩ := List.mem_map.mp hx
    exact List.mem_map_of_mem _ (List.mem_filter.mp hr).1

/-- Witness for C6: "9" is offered for the MLI column under the
Left-tank filter and also with no filters. -/
theorem claim_C6_witness :
    "9" ∈ availableMLIs mixedMliTable ⟨some "Left", none, none, none⟩ ∧
    "9" ∈ availableMLIs mixedMliTable noFilters :=
  ⟨by with_unfolding_all decide,
    (claim_C6 mixedMliTable ⟨some "Left", none, none, none⟩).1 "9"
      (by with_unfolding_all decide)⟩

/-- Claim C7: the reset action zeroes all four per-tank running totals
and hence the total fuel on board, whatever the previous state was. -/
theorem claim_C7 (s : SessionState) :
    reset_all s = ⟨some 0, some 0, some 0, some 0⟩ ∧
    total_fuel (reset_all s) = some 0 := by
  refine ⟨rfl, ?_⟩
  show addFloat (addFloat (addFloat (some 0) (some 0)) (some 0)) (some 0) = some 0
  norm_num [addFloat]

/-- Claim C8: the default pitch is a value normalising to "0" whenever
one is available (the loop keeps the last such index), otherwise the
first available pitch; the default roll is `0.0` exactly when present,
otherwise the first available roll. -/
theorem claim_C8 (db : List Row) (tank mli pitch : String) :
    ((∃ p ∈ valid_pitches db tank mli, pitch_norm_zero p = true) →
      ∃ q, default_pitch (valid_pitches db tank mli) = some q ∧ pitch_norm_zero q = true) ∧
    ((∀ p ∈ valid_pitches db tank mli, pitch_norm_zero p = false) →
      default_pitch (valid_pitches db tank mli) = (valid_pitches db tank mli).head?) ∧
    (some 0 ∈ valid_rolls db tank mli pitch →
      default_roll (valid_rolls db tank mli pitch) = some (some 0)) ∧
    (some 0 ∉ valid_rolls db tank mli pitch →
      default_roll (valid_rolls db tank mli pitch) = (valid_rolls db tank mli pitch).head?) := by
  refine ⟨?_, ?_, ?_, ?_⟩
  · intro h
    obtain ⟨j, q, hj, hq, heq⟩ := p_index_aux_of_exists (valid_pitches db tank mli) 0 0 h
    refine ⟨q, ?_, hq⟩
    rw [default_pitch, p_index, heq]
    simpa using hj
  · intro h
    rw [default_pitch, p_index, p_index_aux_of_none _ 0 0 h, List.head?_eq_getElem?]
  · intro h
    rw [default_roll, r_index, if_pos ((contains_iff_mem _ _).mpr h)]
    exact getElem?_indexOf_mem _ _ h
  · intro h
    rw [default_roll, r_index,
      if_neg (fun hc => h ((contains_iff_mem _ _).mp hc)), List.head?_eq_getElem?]

/-- Witness for C8: on the concrete table, pitch "0" (which normalises
to "0") is available and becomes the default, and roll `0.0` is
available and becomes the default. -/
theorem claim_C8_witness :
    (∃ p ∈ valid_pitches mixedMliTable "Left" "10", pitch_norm_zero p = true) ∧
    (∃ q, default_pitch (valid_pitches mixedMliTable "Left" "10") = some q ∧
      pitch_norm_zero q = true) ∧
    some 0 ∈ valid_rolls mixedMliTable "Left" "10" "0" ∧
    default_roll (valid_rolls mixedMliTable "Left" "10" "0") = some (some 0) :=
  have h1 : ∃ p ∈ valid_pitches mixedMliTable "Left" "10", pitch_norm_zero p = true := by
    with_unfolding_all decide
  have h2 : some 0 ∈ valid_rolls mixedMliTable "Left" "10" "0" := by
    with_unfolding_all decide
  ⟨h1, (claim_C8 mixedMliTable "Left" "10" "0").1 h1, h2,
    (claim_C8 mixedMliTable "Left" "10" "0").2.2.1 h2⟩

/-- Claim C10: for every tank, the roll selector is bypassed (and roll
fixed at `0.0`) exactly when the distinct rolls available after the
pitch filter are empty or the singleton `[0.0]`. -/
theorem claim_C10 (db : List Row) (tank mli pitch : String) (chosen : ℚ) :
    (roll_selector_shown (valid_rolls db tank mli pitch) = false ↔
      valid_rolls db tank mli pitch = [] ∨ valid_rolls db tank mli pitch = [some 0]) ∧
    (roll_selector_shown (valid_rolls db tank mli pitch) = false →
      roll_value (valid_rolls db tank mli pitch) chosen = 0) := by
  refine ⟨roll_shown_iff _, ?_⟩
  intro h
  rw [roll_value, if_neg (by simp [h])]

/-- Witness for C10: with an empty table the roll selector is bypassed
and the roll used downstream is `0.0` even though the user chose `5`. -/
theorem claim_C10_witness :
    roll_selector_shown (valid_rolls [] "Left" "M" "0") = false ∧
    roll_value (valid_rolls [] "Left" "M" "0") 5 = 0 :=
  have h : roll_selector_shown (valid_rolls [] "Left" "M" "0") = false := by
    with_unfolding_all decide
  ⟨h, (claim_C10 [] "Left" "M" "0" 5).2 h⟩

example : parseFloat? "10" = some 10 := by with_unfolding_all decide
example : parseFloat? "-2.5e1" = some (-25) := by with_unfolding_all decide
example : parseFloat? "MLI-3" = none := by with_unfolding_all decide
example : parseFloat? " .5 " = some (1 / 2) := by with_unfolding_all decide
example : parseFloat? "1." = some 1 := by with_unfolding_all decide
example : parseFloat? "1.5e-1" = some (3 / 20) := by with_unfolding_all decide
example : pyStrip "  a b " = "a b" := by with_unfolding_all decide
example : roundTo 2 (25 / 1000) = 2 / 100 := by with_unfolding_all decide
example : roundTo 2 (35 / 1000) = 4 / 100 := by with_unfolding_all decide
example : np_isclose 0 (1 / 250) = true := by with_unfolding_all decide
example : np_isclose 0 (1 / 50) = false := by with_unfolding_all decide
example : np_isclose (50001 / 50) (200001 / 200) = true := by with_unfolding_all decide

end AirbusApp
